import Mathlib

/-!
# Query frame encoder and Array codec of the ClickHouse client

A shallow embedding of `clickhouse_send_query.go` (`sendQuery`) and of
`lib/types/array.go` (`Array`), with the properties of the written
specification stated and proved over it.
-/

namespace Clickhouse

/-! ## Part 1: the query frame (`clickhouse_send_query.go`) -/

/-- A Go `error` value, told apart by its message. `Option GoError` is a Go
`error`, `none` being the nil error. -/
structure GoError where
  msg : String
deriving DecidableEq, Repr

/-- The wire constants of package `protocol` that `sendQuery` names. The package
is not among the sources, so the values are parameters of the development. -/
structure Protocol where
  ClientQuery : Nat
  StateComplete : Nat
  CompressEnable : Nat
  CompressDisable : Nat
  DBMS_MIN_REVISION_WITH_QUOTA_KEY_IN_CLIENT_INFO : Nat
deriving DecidableEq, Repr

/-- A `data.Block`, as far as `sendQuery` is concerned: `data.Block{}` is the
zero value, a block without columns and rows. -/
structure Block where
  NumColumns : Nat
  NumRows : Nat
deriving DecidableEq, Repr

/-- The zero value `data.Block{}`. -/
def Block.zero : Block := ⟨0, 0⟩

/-- One call of `sendQuery` on one of its collaborators: the binary encoder
(`ch.encoder.Uvarint`, `ch.encoder.String`), the client-info writer
(`ch.ClientInfo.Write(ch.encoder)`), the block writer (`ch.writeBlock`) and the
buffered transport (`ch.buffer.Flush`). -/
inductive Call where
  | Uvarint (v : Nat)
  | String (s : String)
  | ClientInfoWrite
  | writeBlock (b : Block)
  | Flush
deriving DecidableEq, Repr

/-- The collaborators behind a connection. Each call returns a Go `error`; which
one may depend on everything the connection was asked to do before (a broken
pipe, a full buffer, an encoding failure), so the result of a call is a function
of the calls made so far and of the call itself. -/
structure Transport where
  outcome : List Call → Call → Option GoError

/-- The connection `*clickhouse`, restricted to what `sendQuery` reads and
writes: the negotiated revision (`ch.ServerInfo.Revision`), the compression
preference (`ch.compress`), the collaborators, and the record of every call made
on them so far together with the error it returned. -/
structure clickhouse where
  Revision : Nat
  compress : Bool
  transport : Transport
  log : List (Call × Option GoError)

/-- The calls made so far, without their results. -/
def clickhouse.calls (ch : clickhouse) : List Call := ch.log.map Prod.fst

/-- Perform one call on the collaborators: it is recorded with its result, and
the result is handed back to the caller. -/
def clickhouse.call (ch : clickhouse) (c : Call) : clickhouse × Option GoError :=
  ({ ch with log := ch.log ++ [(c, ch.transport.outcome ch.calls c)] },
   ch.transport.outcome ch.calls c)

/-- The method `(ch *clickhouse) sendQuery(query string) error`. `hostname` is the
package-level variable of that name. A call written
`if err := f(); err != nil { return err }` in the source is a `match` on the
result here; a call whose result the source discards (`ch.encoder.Uvarint(1)` and
the other writes of the client-info block, and the quota-key write) keeps only
the connection. The `ch.logf` line writes to the debug log and not to the
connection. -/
def sendQuery (P : Protocol) (hostname : String) (ch : clickhouse) (query : String) :
    clickhouse × Option GoError :=
  match ch.call (.Uvarint P.ClientQuery) with
  | (ch, some err) => (ch, some err)
  | (ch, none) =>
  match ch.call (.String "") with
  | (ch, some err) => (ch, some err)
  | (ch, none) =>
  -- client info
  let ch := (ch.call (.Uvarint 1)).1
  let ch := (ch.call (.String "")).1
  let ch := (ch.call (.String "")).1 -- initial_query_id
  let ch := (ch.call (.String "[::ffff:127.0.0.1]:0")).1
  let ch := (ch.call (.Uvarint 1)).1 -- iface type TCP
  let ch := (ch.call (.String hostname)).1
  let ch := (ch.call (.String hostname)).1
  match ch.call .ClientInfoWrite with
  | (ch, some err) => (ch, some err)
  | (ch, none) =>
  let ch :=
    if ch.Revision ≥ P.DBMS_MIN_REVISION_WITH_QUOTA_KEY_IN_CLIENT_INFO then
      (ch.call (.String "")).1
    else ch
  match ch.call (.String "") with -- settings
  | (ch, some err) => (ch, some err)
  | (ch, none) =>
  match ch.call (.Uvarint P.StateComplete) with
  | (ch, some err) => (ch, some err)
  | (ch, none) =>
  let compress := if ch.compress then P.CompressEnable else P.CompressDisable
  match ch.call (.Uvarint compress) with
  | (ch, some err) => (ch, some err)
  | (ch, none) =>
  match ch.call (.String query) with
  | (ch, some err) => (ch, some err)
  | (ch, none) =>
  match ch.call (.writeBlock Block.zero) with
  | (ch, some err) => (ch, some err)
  | (ch, none) =>
  ch.call .Flush

/-- A transport on which every call succeeds. -/
def Transport.reliable : Transport := ⟨fun _ _ => none⟩

/-- The published values of the wire constants, used to evaluate the model. -/
def nativeProtocol : Protocol :=
  { ClientQuery := 1, StateComplete := 2, CompressEnable := 1, CompressDisable := 0,
    DBMS_MIN_REVISION_WITH_QUOTA_KEY_IN_CLIENT_INFO := 54060 }

/-- A fresh connection over a given transport. -/
def clickhouse.fresh (rev : Nat) (compress : Bool) (t : Transport) : clickhouse :=
  { Revision := rev, compress := compress, transport := t, log := [] }

/-- One step of the frame: the call, and whether the source checks its error. -/
structure Step where
  call : Call
  checked : Bool
deriving DecidableEq, Repr

/-- Run a list of steps in order: the error of a checked step ends the run and is
returned, the error of an unchecked step is dropped. -/
def runSteps : List Step → clickhouse → clickhouse × Option GoError
  | [], ch => (ch, none)
  | s :: rest, ch =>
    match ch.call s.call with
    | (ch1, some err) => if s.checked then (ch1, some err) else runSteps rest ch1
    | (ch1, none) => runSteps rest ch1

/-- The compression value of a frame, from the connection's preference. -/
def compressValue (P : Protocol) (compress : Bool) : Nat :=
  if compress then P.CompressEnable else P.CompressDisable

/-- The steps of `sendQuery` before the flush, in source order, with the checked
ones marked. -/
def frameWrites (P : Protocol) (hostname : String) (rev : Nat) (compress : Bool)
    (query : String) : List Step :=
  [⟨.Uvarint P.ClientQuery, true⟩, ⟨.String "", true⟩,
   ⟨.Uvarint 1, false⟩, ⟨.String "", false⟩, ⟨.String "", false⟩,
   ⟨.String "[::ffff:127.0.0.1]:0", false⟩, ⟨.Uvarint 1, false⟩,
   ⟨.String hostname, false⟩, ⟨.String hostname, false⟩,
   ⟨.ClientInfoWrite, true⟩] ++
  (if rev ≥ P.DBMS_MIN_REVISION_WITH_QUOTA_KEY_IN_CLIENT_INFO then [⟨.String "", false⟩] else []) ++
  [⟨.String "", true⟩, ⟨.Uvarint P.StateComplete, true⟩,
   ⟨.Uvarint (compressValue P compress), true⟩, ⟨.String query, true⟩,
   ⟨.writeBlock Block.zero, true⟩]

/-- The steps of `sendQuery`: the writes, then the flush, whose error is the last
one returned. -/
def frameSteps (P : Protocol) (hostname : String) (rev : Nat) (compress : Bool)
    (query : String) : List Step :=
  frameWrites P hostname rev compress query ++ [⟨.Flush, true⟩]

/-- The frame up to and including the client-info writer, as the specification
lists it (items 1 to 4). It depends on neither the revision nor the query. -/
def frameHead (P : Protocol) (hostname : String) : List Call :=
  [.Uvarint P.ClientQuery, .String "", .Uvarint 1, .String "", .String "",
   .String "[::ffff:127.0.0.1]:0", .Uvarint 1, .String hostname, .String hostname,
   .ClientInfoWrite]

/-- The frame from the settings string to the flush, as the specification lists
it (items 6 to 11). It does not depend on the revision. -/
def frameTail (P : Protocol) (compress : Bool) (query : String) : List Call :=
  [.String "", .Uvarint P.StateComplete, .Uvarint (compressValue P compress),
   .String query, .writeBlock Block.zero, .Flush]

/-- The entries that a run of `sendQuery` added to the record of a connection. -/
def newEntries (before : clickhouse) (after : clickhouse × Option GoError) :
    List (Call × Option GoError) :=
  after.1.log.drop before.log.length

/-- The calls that a run of `sendQuery` made, in order. -/
def newCalls (before : clickhouse) (after : clickhouse × Option GoError) : List Call :=
  (newEntries before after).map Prod.fst

/-- A transport whose third call fails once (a write that times out) and whose
other calls succeed. -/
def Transport.thirdCallFails : Transport :=
  ⟨fun history _ => if history.length = 2 then some ⟨"write: i/o timeout"⟩ else none⟩

/-- A transport that fails from its third call on, each call with an error of
its own (the encoder first, then whoever writes next). -/
def Transport.brokenFromThird : Transport :=
  ⟨fun history c =>
    if history.length < 2 then none
    else if c = .ClientInfoWrite then some ⟨"client info: connection reset"⟩
    else some ⟨"write: broken pipe"⟩⟩

/-! ## Part 2: arrays (`lib/types/array.go`) -/

/-- A `*time.Location`, told apart by its name. -/
structure Location where
  name : String
deriving DecidableEq, Repr

/-- A `time.Time`: an instant, the location it is shown in, and the offset in
seconds east of UTC of the zone in effect there at that instant (the second
result of `t.Zone()`). -/
structure Time where
  unixNano : Int
  loc : Location
  zoneOffset : Int
deriving DecidableEq, Repr

/-- An element of a sequence as `v.Index(i).Interface()` hands it to a codec.
Floats are kept by their bit pattern; `other` is an element of any other type. -/
inductive Elem where
  | int8 (x : Int)
  | int16 (x : Int)
  | int32 (x : Int)
  | int64 (x : Int)
  | uint8 (x : Nat)
  | uint16 (x : Nat)
  | uint32 (x : Nat)
  | uint64 (x : Nat)
  | float32 (bits : Nat)
  | float64 (bits : Nat)
  | string (s : String)
  | time (t : Time)
  | int (x : Int)
  | other (typeName : String) (repr : String)
deriving DecidableEq, Repr

/-- A Go value held in an `interface{}`, as far as the package tells values
apart: the nil interface, the twelve slice types of `columnsMap`, `[]int` (known
to gob through `init`, absent from `columnsMap`), a single `time.Time` (looked at
by `NewArrayByType`), a slice or array of any other type, and any other value
that is not a sequence. -/
inductive GoValue where
  | nil
  | int8s (xs : List Int)
  | int16s (xs : List Int)
  | int32s (xs : List Int)
  | int64s (xs : List Int)
  | uint8s (xs : List Nat)
  | uint16s (xs : List Nat)
  | uint32s (xs : List Nat)
  | uint64s (xs : List Nat)
  | float32s (xs : List Nat)
  | float64s (xs : List Nat)
  | strings (xs : List String)
  | times (xs : List Time)
  | ints (xs : List Int)
  | time (t : Time)
  | seq (typeName : String) (xs : List Elem)
  | scalar (typeName : String) (repr : String)
deriving DecidableEq, Repr

/-- A `reflect.Type`, the key type of `columnsMap`. `nil` is the result of
`reflect.TypeOf(nil)`; `named` is any type other than those listed. -/
inductive GoType where
  | nil
  | int8s | int16s | int32s | int64s
  | uint8s | uint16s | uint32s | uint64s
  | float32s | float64s
  | strings
  | times
  | ints
  | time
  | named (typeName : String)
deriving DecidableEq, Repr

/-- The function `reflect.TypeOf`. -/
def GoValue.TypeOf : GoValue → GoType
  | .nil => .nil
  | .int8s _ => .int8s
  | .int16s _ => .int16s
  | .int32s _ => .int32s
  | .int64s _ => .int64s
  | .uint8s _ => .uint8s
  | .uint16s _ => .uint16s
  | .uint32s _ => .uint32s
  | .uint64s _ => .uint64s
  | .float32s _ => .float32s
  | .float64s _ => .float64s
  | .strings _ => .strings
  | .times _ => .times
  | .ints _ => .ints
  | .time _ => .time
  | .seq n _ => .named n
  | .scalar n _ => .named n

/-- What the verb `%T` of package `fmt` prints for a value. -/
def GoValue.typeName : GoValue → String
  | .nil => "<nil>"
  | .int8s _ => "[]int8"
  | .int16s _ => "[]int16"
  | .int32s _ => "[]int32"
  | .int64s _ => "[]int64"
  | .uint8s _ => "[]uint8"
  | .uint16s _ => "[]uint16"
  | .uint32s _ => "[]uint32"
  | .uint64s _ => "[]uint64"
  | .float32s _ => "[]float32"
  | .float64s _ => "[]float64"
  | .strings _ => "[]string"
  | .times _ => "[]time.Time"
  | .ints _ => "[]int"
  | .time _ => "time.Time"
  | .seq n _ => n
  | .scalar n _ => n

/-- The elements of a value, in index order, when `reflect.ValueOf(v).Len()` and
`.Index(i)` are defined for it; `none` when `Len` panics (the nil interface and
the values that are not sequences). -/
def GoValue.elems : GoValue → Option (List Elem)
  | .nil => none
  | .int8s xs => some (xs.map .int8)
  | .int16s xs => some (xs.map .int16)
  | .int32s xs => some (xs.map .int32)
  | .int64s xs => some (xs.map .int64)
  | .uint8s xs => some (xs.map .uint8)
  | .uint16s xs => some (xs.map .uint16)
  | .uint32s xs => some (xs.map .uint32)
  | .uint64s xs => some (xs.map .uint64)
  | .float32s xs => some (xs.map .float32)
  | .float64s xs => some (xs.map .float64)
  | .strings xs => some (xs.map .string)
  | .times xs => some (xs.map .time)
  | .ints xs => some (xs.map .int)
  | .time _ => none
  | .seq _ xs => some xs
  | .scalar _ _ => none

/-- A codec, a value of the interface `column.Column`: the eleven codecs without
fields that `columnsMap` names, `column.DateTime` with its two fields, and any
other implementation (what `column.Factory` may return, or what a caller hands to
`WriteArray`). A nil `column.Column` is `none` in `Option Column`. -/
inductive Column where
  | Int8 | Int16 | Int32 | Int64
  | UInt8 | UInt16 | UInt32 | UInt64
  | Float32 | Float64
  | String
  | DateTime (IsFull : Bool) (Timezone : Location)
  | Other (chType : String)
deriving DecidableEq, Repr

/-- What lies outside `array.go` and is consulted by it: the process-local
timezone `time.Local`, the registry factory `column.Factory(name, chType,
timezone)` with its two results, and the method `Write(encoder, v)` of the
codecs, given by the bytes it appends to the encoder and the error it returns. -/
structure Env where
  Local : Location
  Factory : String → String → Location → Option Column × Option GoError
  Write : Column → Elem → List Nat × Option GoError

/-- The variable `columnsMap`. -/
def columnsMap (env : Env) : GoType → Option Column
  | .int8s => some .Int8
  | .int16s => some .Int16
  | .int32s => some .Int32
  | .int64s => some .Int64
  | .uint8s => some .UInt8
  | .uint16s => some .UInt16
  | .uint32s => some .UInt32
  | .uint64s => some .UInt64
  | .float32s => some .Float32
  | .float64s => some .Float64
  | .strings => some .String
  | .times => some (.DateTime true env.Local)
  | _ => none

/-- The struct `Array`. -/
structure Array where
  err : Option GoError
  values : GoValue
  column : Option Column
deriving DecidableEq, Repr

/-- The zero value `Array{}`, a fresh instance. -/
def Array.zero : Array := { err := none, values := .nil, column := none }

/-- The function `NewArray`. -/
def NewArray (env : Env) (v : GoValue) : Array :=
  match columnsMap env v.TypeOf with
  | some column => { err := none, values := v, column := some column }
  | none =>
    { err := some ⟨"unsupported array type " ++ v.typeName⟩, values := .nil, column := none }

/-- The function `NewArrayByType`. The assertion `v.(time.Time)` holds for a
single `time.Time` only. -/
def NewArrayByType (env : Env) (chType : String) (v : GoValue) : Array :=
  let timezone :=
    match v with
    | .time tm => tm.loc
    | _ => env.Local
  let (column, err) := env.Factory "" chType timezone
  { err := err, values := v, column := column }

/-- The bytes given to `GobDecode` and returned by `GobEncode`, by what a gob
decoder finds in them. `Encoder.Encode(x)` transmits the value it is handed under
the wire type of its concrete type (`concrete`); it transmits an interface value,
that is the registered name of the concrete type followed by the value, only when
it is handed a pointer to an interface variable (`iface`). Any other byte string
makes the decoder report an error (`invalid`). -/
inductive GobStream where
  | concrete (v : GoValue)
  | iface (v : GoValue)
  | invalid (e : GoError)
deriving DecidableEq, Repr

/-- The name under which gob describes the wire type of a transmitted concrete
value: gob has one wire type for all signed integers, one for the unsigned, one
for the floats, and sends a byte slice as `bytes`. -/
def GoValue.gobWireName : GoValue → String
  | .int8s _ | .int16s _ | .int32s _ | .int64s _ | .ints _ => "[]int"
  | .uint8s _ => "bytes"
  | .uint16s _ | .uint32s _ | .uint64s _ => "[]uint"
  | .float32s _ | .float64s _ => "[]float"
  | .strings _ => "[]string"
  | .times _ => "[]Time"
  | .time _ => "Time"
  | v => v.typeName

/-- The call `dec.Decode(&v)` of package encoding/gob for `var v interface{}`. An
interface variable is filled from a transmitted interface value only; handed a
stream that carries a concrete value the decoder fails (gob, `compileSingle`:
"local interface type ... can only be decoded from remote interface type"). -/
def gobDecodeInterface : GobStream → Except GoError GoValue
  | .iface v => .ok v
  | .concrete v =>
    .error ⟨"gob: local interface type *interface \x7b\x7d can only be decoded from remote " ++
      "interface type; received concrete type " ++ v.gobWireName⟩
  | .invalid e => .error e

/-- The method `GobDecode`: the receiver after the call, and the error returned
(`array.err` as it stands then). -/
def Array.GobDecode (env : Env) (array : Array) (data : GobStream) :
    Array × Option GoError :=
  match gobDecodeInterface data with
  | .ok v =>
    match columnsMap env v.TypeOf with
    | some column =>
      let array := { array with values := v, column := some column }
      (array, array.err)
    | none =>
      let array := { array with err := some ⟨"unsupported array type " ++ v.typeName⟩ }
      (array, array.err)
  | .error e =>
    let array := { array with err := some e }
    (array, array.err)

/-- The error of `Time.MarshalBinary` of package time, through which gob encodes
a `time.Time`: a time in UTC always marshals; otherwise the zone offset is taken
in whole minutes (Go's division, which truncates) and has to fit sixteen bits and
differ from -1, the mark kept for UTC. This is the check of Go 1.20 and later;
earlier releases reject in addition an offset that is not a whole number of
minutes. -/
def Time.marshalBinaryError (t : Time) : Option GoError :=
  if t.loc = ⟨"UTC"⟩ then none
  else if Int.tdiv t.zoneOffset 60 < -32768 ∨ Int.tdiv t.zoneOffset 60 = -1 ∨
      Int.tdiv t.zoneOffset 60 > 32767 then
    some ⟨"Time.MarshalBinary: unexpected zone offset"⟩
  else none

/-- The error of the call `enc.Encode(t)` of package encoding/gob for a slice of
one of the twelve types of the type switch: slices of numbers and of strings
always encode; a slice of times is encoded element by element and the encoder
returns the error of the first element that does not marshal. -/
def gobEncodeError : GoValue → Option GoError
  | .times xs => xs.findSome? Time.marshalBinaryError
  | _ => none

/-- The method `GobEncode`: the bytes (or nil) and the error. In each case of the
type switch `t` is the held slice under its concrete type, so `enc.Encode(t)`
transmits a concrete value, and `e` is the error of that call; in the default
case `e` is the error "unsupported array type". The bytes of the buffer are
returned when `e` is nil, and nil with `e` otherwise. -/
def Array.GobEncode (array : Array) : Option GobStream × Option GoError :=
  let e : Option GoError :=
    match array.values with
    | .int8s xs => gobEncodeError (.int8s xs)
    | .int16s xs => gobEncodeError (.int16s xs)
    | .int32s xs => gobEncodeError (.int32s xs)
    | .int64s xs => gobEncodeError (.int64s xs)
    | .uint8s xs => gobEncodeError (.uint8s xs)
    | .uint16s xs => gobEncodeError (.uint16s xs)
    | .uint32s xs => gobEncodeError (.uint32s xs)
    | .uint64s xs => gobEncodeError (.uint64s xs)
    | .float32s xs => gobEncodeError (.float32s xs)
    | .float64s xs => gobEncodeError (.float64s xs)
    | .strings xs => gobEncodeError (.strings xs)
    | .times xs => gobEncodeError (.times xs)
    | v => some ⟨"unsupported array type " ++ v.typeName⟩
  match e with
  | none => (some (.concrete array.values), none)
  | some e => (none, some e)

/-- The loop of the varint writer, `for x >= 0x80 { emit byte(x)|0x80; x >>= 7 }`
followed by the last byte, with a bound on the number of rounds. -/
def putUvarintLoop : Nat → Nat → List Nat
  | 0, x => [x]
  | rounds + 1, x =>
    if x < 128 then [x] else (x % 128 + 128) :: putUvarintLoop rounds (x / 128)

/-- Modelled from the spec: the unsigned varint writer `Uvarint` of the binary
encoder (package `lib/binary` is not among the sources). Seven bits per byte,
least significant group first, the high bit set on every byte but the last. The
loop is given `x` rounds, more than it ever takes. -/
def putUvarint (x : Nat) : List Nat := putUvarintLoop x x

/-- The result of a call that may panic. The message names the operation that
panicked and the type of the value it was applied to; it is a description, not
the text the Go runtime prints. -/
inductive Outcome (α : Type) where
  | ret (r : α)
  | panic (msg : String)
deriving DecidableEq, Repr

/-- The loop `for i := 0; i < ln; i++ ...` of `Value` and `WriteArray`: each
element is written by `column.Write(encoder, elem)`; the first error ends the
loop. The state is the encoder's content; the result is that content and the
error. Calling `Write` on a nil `column.Column` panics. -/
def writeElems (env : Env) (column : Option Column) :
    List Elem → List Nat → Outcome (List Nat × Option GoError)
  | [], buff => .ret (buff, none)
  | x :: rest, buff =>
    match column with
    | none => .panic "invalid memory address or nil pointer dereference"
    | some c =>
      match env.Write c x with
      | (bytes, some err) => .ret (buff ++ bytes, some err)
      | (bytes, none) => writeElems env column rest (buff ++ bytes)

/-- The method `Value`: the buffer (or nil) and the error. The buffer is the
in-memory `writebuffer`, so the `Uvarint` of the count cannot fail. -/
def Array.Value (env : Env) (array : Array) : Outcome (Option (List Nat) × Option GoError) :=
  match array.err with
  | some err => .ret (none, some err)
  | none =>
    match array.values.elems with
    | none => .panic ("reflect: call of reflect.Value.Len on " ++ array.values.typeName)
    | some v =>
      let ln := v.length
      let buff := putUvarint ln
      match writeElems env array.column v buff with
      | .panic msg => .panic msg
      | .ret (_, some err) => .ret (none, some err) -- buff.Reset()
      | .ret (buff, none) => .ret (some buff, none)

/-- The method `WriteArray`: the caller's encoder after the call, the count and
the error. -/
def Array.WriteArray (env : Env) (array : Array) (encoder : List Nat)
    (column : Option Column) : Outcome (List Nat × Nat × Option GoError) :=
  match array.err with
  | some err => .ret (encoder, 0, some err)
  | none =>
    match array.values.elems with
    | none => .panic ("reflect: call of reflect.Value.Len on " ++ array.values.typeName)
    | some v =>
      let ln := v.length
      match writeElems env column v encoder with
      | .panic msg => .panic msg
      | .ret (encoder, some err) => .ret (encoder, 0, some err)
      | .ret (encoder, none) => .ret (encoder, ln, none)

/-- The unsigned varint at the head of a buffer, and the bytes after it: the
reader that goes with `putUvarint`. -/
def readUvarint : List Nat → Option (Nat × List Nat)
  | [] => none
  | b :: rest =>
    if b < 128 then some (b, rest)
    else
      match readUvarint rest with
      | some (v, tail) => some (b - 128 + 128 * v, tail)
      | none => none

/-- The bytes of the elements of a sequence under a codec, one after the other
in sequence order. -/
def encodeElems (env : Env) (column : Column) (xs : List Elem) : List Nat :=
  (xs.map (fun x => (env.Write column x).1)).flatten

/-- The two states of an Array in the specification: no error, a sequence and a
codec; or an error, no values and no codec. -/
def Array.exclusive (array : Array) : Prop :=
  (array.err = none ∧ array.values.elems ≠ none ∧ array.column ≠ none) ∨
  (array.err ≠ none ∧ array.values = .nil ∧ array.column = none)

instance (array : Array) : Decidable array.exclusive := by
  unfold Array.exclusive
  infer_instance

/-- An environment to evaluate the model in: a factory that knows three type
names, and one-byte codecs for `Int8` and `UInt8` that reject a value of any
other type. -/
def sampleEnv : Env :=
  { Local := ⟨"Local"⟩
    Factory := fun _ chType timezone =>
      if chType = "Int8" then (some .Int8, none)
      else if chType = "UInt8" then (some .UInt8, none)
      else if chType = "DateTime" then (some (.DateTime false timezone), none)
      else (none, some ⟨"column: unhandled type " ++ chType⟩)
    Write := fun column x =>
      match column, x with
      | .Int8, .int8 v => ([(v % 256).toNat], none)
      | .UInt8, .uint8 v => ([v % 256], none)
      | _, _ => ([], some ⟨"unexpected type"⟩) }

/-- The twelve sequence types that the specification lists as registered:
slices of the signed and unsigned integers of 8 to 64 bits, of the two floats, of
strings and of timestamps. -/
def registryTypes : List GoType :=
  [.int8s, .int16s, .int32s, .int64s, .uint8s, .uint16s, .uint32s, .uint64s,
   .float32s, .float64s, .strings, .times]

/-- The timezone that the specification has `NewArrayByType` hand to the factory:
the one the value carries (a single timestamp, or the timestamps of a sequence),
and the process-local one when the value carries none. -/
def specTimezone (env : Env) : GoValue → Location
  | .time tm => tm.loc
  | .times (tm :: _) => tm.loc
  | _ => env.Local

/-- A sequence of mixed elements, as a `[]interface{}` holds them. -/
def mixedSeq : GoValue :=
  .seq "[]interface \x7b\x7d" [.int8 1, .int8 2, .uint8 3, .int8 4]

/-! ### Lemmas on the step interpreter -/

@[simp] theorem call_log (ch : clickhouse) (c : Call) :
    (ch.call c).1.log = ch.log ++ [(c, ch.transport.outcome ch.calls c)] := rfl

@[simp] theorem call_Revision (ch : clickhouse) (c : Call) :
    (ch.call c).1.Revision = ch.Revision := rfl

@[simp] theorem call_compress (ch : clickhouse) (c : Call) :
    (ch.call c).1.compress = ch.compress := rfl

@[simp] theorem call_transport (ch : clickhouse) (c : Call) :
    (ch.call c).1.transport = ch.transport := rfl

@[simp] theorem call_result (ch : clickhouse) (c : Call) :
    (ch.call c).2 = ch.transport.outcome ch.calls c := rfl

theorem runSteps_cons (s : Step) (rest : List Step) (ch : clickhouse) :
    runSteps (s :: rest) ch =
      match (ch.call s.call).2 with
      | some err => if s.checked then ((ch.call s.call).1, some err)
                    else runSteps rest (ch.call s.call).1
      | none => runSteps rest (ch.call s.call).1 := by
  rw [runSteps]
  cases h : ch.transport.outcome ch.calls s.call <;> simp [clickhouse.call, h]

theorem call_cases (ch : clickhouse) (c : Call) :
    ∃ ch1 o, ch.call c = (ch1, o) ∧ ch1.Revision = ch.Revision ∧
      ch1.compress = ch.compress :=
  ⟨_, _, rfl, rfl, rfl⟩

theorem checked_step (c : Call) (k : clickhouse → clickhouse × Option GoError)
    (rest : List Step) (ch : clickhouse)
    (hk : ∀ ch1, ch1.Revision = ch.Revision → ch1.compress = ch.compress →
      k ch1 = runSteps rest ch1) :
    (match ch.call c with
      | (ch1, some err) => (ch1, some err)
      | (ch1, none) => k ch1) = runSteps (⟨c, true⟩ :: rest) ch := by
  rw [runSteps]
  obtain ⟨ch1, o, h, hr, hc⟩ := call_cases ch c
  rw [h]
  cases o with
  | none => simpa using hk ch1 hr hc
  | some e => simp

theorem runSteps_unchecked (c : Call) (rest : List Step) (ch : clickhouse) :
    runSteps (⟨c, false⟩ :: rest) ch = runSteps rest (ch.call c).1 := by
  rw [runSteps]
  obtain ⟨ch1, o, h, -, -⟩ := call_cases ch c
  rw [h]
  cases o <;> simp

theorem last_step (c : Call) (ch : clickhouse) :
    ch.call c = runSteps [⟨c, true⟩] ch := by
  rw [runSteps]
  obtain ⟨ch1, o, h, -, -⟩ := call_cases ch c
  rw [h]
  cases o <;> simp [runSteps]

/-- The source text of `sendQuery` and the step list describe the same run. -/
theorem sendQuery_eq_runSteps (P : Protocol) (hostname : String) (ch : clickhouse)
    (query : String) :
    sendQuery P hostname ch query =
      runSteps (frameSteps P hostname ch.Revision ch.compress query) ch := by
  unfold sendQuery frameSteps frameWrites compressValue
  simp only [List.cons_append, List.nil_append, List.append_assoc]
  refine checked_step _ _ _ _ ?_
  intro ch1 hr1 hc1
  refine checked_step _ _ _ _ ?_
  intro ch2 hr2 hc2
  simp only [runSteps_unchecked]
  refine checked_step _ _ _ _ ?_
  intro ch3 hr3 hc3
  simp only [call_Revision, call_compress] at hr3 hc3
  have hr : ch3.Revision = ch.Revision := by rw [hr3, hr2, hr1]
  have hc : ch3.compress = ch.compress := by rw [hc3, hc2, hc1]
  rw [hr]
  by_cases hq : ch.Revision ≥ P.DBMS_MIN_REVISION_WITH_QUOTA_KEY_IN_CLIENT_INFO
  · simp only [if_pos hq, List.cons_append, List.nil_append, runSteps_unchecked]
    refine checked_step _ _ _ _ ?_
    intro ch4 hr4 hc4
    refine checked_step _ _ _ _ ?_
    intro ch5 hr5 hc5
    simp only [call_Revision, call_compress] at hr4 hc4
    have hc6 : ch5.compress = ch.compress := by rw [hc5, hc4, hc]
    rw [hc6]
    refine checked_step _ _ _ _ ?_
    intro ch6 _ _
    refine checked_step _ _ _ _ ?_
    intro ch7 _ _
    refine checked_step _ _ _ _ ?_
    intro ch8 _ _
    exact last_step _ _
  · simp only [if_neg hq, List.cons_append, List.nil_append]
    refine checked_step _ _ _ _ ?_
    intro ch4 hr4 hc4
    refine checked_step _ _ _ _ ?_
    intro ch5 hr5 hc5
    have hc6 : ch5.compress = ch.compress := by rw [hc5, hc4, hc]
    rw [hc6]
    refine checked_step _ _ _ _ ?_
    intro ch6 _ _
    refine checked_step _ _ _ _ ?_
    intro ch7 _ _
    refine checked_step _ _ _ _ ?_
    intro ch8 _ _
    exact last_step _ _

/-- A run only ever appends to the record of the connection. -/
theorem runSteps_log_append (steps : List Step) (ch : clickhouse) :
    ∃ l, (runSteps steps ch).1.log = ch.log ++ l := by
  induction steps generalizing ch with
  | nil => exact ⟨[], by simp [runSteps]⟩
  | cons s rest ih =>
    rw [runSteps_cons]
    obtain ⟨l, hl⟩ := ih (ch.call s.call).1
    cases ho : (ch.call s.call).2 with
    | none =>
      exact ⟨(s.call, ch.transport.outcome ch.calls s.call) :: l, by simp [hl]⟩
    | some e =>
      by_cases hc : s.checked
      · exact ⟨[(s.call, ch.transport.outcome ch.calls s.call)], by simp [hc]⟩
      · exact ⟨(s.call, ch.transport.outcome ch.calls s.call) :: l, by simp [hc, hl]⟩

/-- A run of some steps followed by a checked last call, none of the steps
being that call: when every recorded call other than the last returned the nil
error, every step was made, then the last call, whose result the run returns. -/
theorem runSteps_writes_ok (writes : List Step) (last : Call) (ch : clickhouse)
    (hw : ∀ s ∈ writes, s.call ≠ last)
    (hok : ∀ entry ∈ (runSteps (writes ++ [⟨last, true⟩]) ch).1.log.drop ch.log.length,
      entry.1 ≠ last → entry.2 = none) :
    (runSteps (writes ++ [⟨last, true⟩]) ch).1.log =
      ch.log ++ writes.map (fun s => (s.call, none)) ++
        [(last, (runSteps (writes ++ [⟨last, true⟩]) ch).2)] := by
  induction writes generalizing ch with
  | nil =>
    rw [List.nil_append, ← last_step]
    simp
  | cons s rest ih =>
    have hs : s.call ≠ last := hw s (by simp)
    have hrestw : ∀ t ∈ rest, t.call ≠ last := fun t ht => hw t (by simp [ht])
    obtain ⟨l, hl⟩ := runSteps_log_append (rest ++ [⟨last, true⟩]) (ch.call s.call).1
    rw [List.cons_append, runSteps_cons] at hok ⊢
    cases ho : (ch.call s.call).2 with
    | none =>
      simp only [ho] at hok ⊢
      have hrest := ih (ch.call s.call).1 hrestw (by
        intro entry hmem
        apply hok
        rw [hl] at hmem ⊢
        simp only [call_log, List.append_assoc, List.drop_left, List.length_append,
          List.length_singleton] at hmem ⊢
        rw [show ch.log.length + 1 =
            (ch.log ++ [(s.call, ch.transport.outcome ch.calls s.call)]).length
          by simp, ← List.append_assoc, List.drop_left] at hmem
        simp [hmem])
      rw [hrest]
      simp only [call_result] at ho
      simp [ho]
    | some e =>
      simp only [ho] at hok
      exfalso
      by_cases hc : s.checked
      · simp only [hc, if_true, call_log, List.drop_left] at hok
        have := hok _ (List.mem_singleton.mpr rfl) hs
        simp only [call_result] at ho
        simp [ho] at this
      · rw [if_neg (by simpa using hc)] at hok
        simp only [hl, call_log, List.append_assoc, List.drop_left] at hok
        have := hok (s.call, ch.transport.outcome ch.calls s.call) (by simp) hs
        simp only [call_result] at ho
        simp [ho] at this

/-- A run that returns the nil error has called every step of the list. -/
theorem runSteps_calls_of_ok (steps : List Step) (ch : clickhouse)
    (hnil : (runSteps steps ch).2 = none) :
    (runSteps steps ch).1.calls = ch.calls ++ steps.map Step.call := by
  induction steps generalizing ch with
  | nil => simp [runSteps]
  | cons s rest ih =>
    rw [runSteps_cons] at hnil ⊢
    cases ho : (ch.call s.call).2 with
    | none =>
      simp only [ho] at hnil ⊢
      rw [ih _ hnil]
      simp [clickhouse.calls]
    | some e =>
      simp only [ho] at hnil ⊢
      by_cases hc : s.checked
      · simp [hc] at hnil
      · simp only [hc] at hnil ⊢
        rw [if_neg (by simp)] at hnil ⊢
        rw [ih _ hnil]
        simp [clickhouse.calls]

/-! ### The claims on `sendQuery` -/

theorem newEntries_of_log (ch : clickhouse) (r : clickhouse × Option GoError)
    (l : List (Call × Option GoError)) (h : r.1.log = ch.log ++ l) :
    newEntries ch r = l := by
  simp [newEntries, h]

theorem newCalls_of_calls (ch : clickhouse) (r : clickhouse × Option GoError)
    (l : List Call) (h : r.1.calls = ch.calls ++ l) : newCalls ch r = l := by
  have h1 : newCalls ch r = r.1.calls.drop ch.calls.length := by
    simp [newCalls, newEntries, clickhouse.calls, List.map_drop]
  rw [h1, h, List.drop_left]

theorem frameSteps_eq_writes (P : Protocol) (hostname : String) (rev : Nat)
    (compress : Bool) (query : String) :
    frameSteps P hostname rev compress query =
      frameWrites P hostname rev compress query ++ [⟨Call.Flush, true⟩] := rfl

theorem frameWrites_no_flush (P : Protocol) (hostname : String) (rev : Nat)
    (compress : Bool) (query : String) :
    ∀ s ∈ frameWrites P hostname rev compress query, s.call ≠ Call.Flush := by
  intro s hs
  by_cases hq : rev ≥ P.DBMS_MIN_REVISION_WITH_QUOTA_KEY_IN_CLIENT_INFO
  · simp only [frameWrites, if_pos hq, List.cons_append, List.nil_append, List.mem_cons,
      List.mem_singleton, List.not_mem_nil, or_false] at hs
    rcases hs with h | h | h | h | h | h | h | h | h | h | h | h | h | h | h | h <;>
      simp [h]
  · simp only [frameWrites, if_neg hq, List.cons_append, List.nil_append, List.append_nil,
      List.mem_cons, List.mem_singleton, List.not_mem_nil, or_false] at hs
    rcases hs with h | h | h | h | h | h | h | h | h | h | h | h | h | h | h <;>
      simp [h]

/-- C1: when every write that a run of `sendQuery` makes returns the nil error
(every recorded call other than the flush), the run adds to the record exactly:
uvarint ClientQuery, the empty string, uvarint 1, two empty strings, the string
"[::ffff:127.0.0.1]:0", uvarint 1, the hostname twice, the client-info writer,
the quota-key string when the revision asks for it, the empty settings string,
uvarint StateComplete, the compression uvarint, the query text, the empty block,
in this order and with nothing in between, and then one flush, whose result is
what `sendQuery` returns. -/
theorem sendQuery_emits_frame (P : Protocol) (hostname : String) (ch : clickhouse)
    (query : String)
    (hok : ∀ entry ∈ newEntries ch (sendQuery P hostname ch query),
      entry.1 ≠ Call.Flush → entry.2 = none) :
    (sendQuery P hostname ch query).1.log = ch.log ++
      (([Call.Uvarint P.ClientQuery, Call.String "", Call.Uvarint 1, Call.String "",
         Call.String "", Call.String "[::ffff:127.0.0.1]:0", Call.Uvarint 1,
         Call.String hostname, Call.String hostname, Call.ClientInfoWrite] ++
        (if ch.Revision ≥ P.DBMS_MIN_REVISION_WITH_QUOTA_KEY_IN_CLIENT_INFO
          then [Call.String ""] else []) ++
        [Call.String "", Call.Uvarint P.StateComplete,
         Call.Uvarint (if ch.compress then P.CompressEnable else P.CompressDisable),
         Call.String query, Call.writeBlock Block.zero]).map (fun c => (c, none))) ++
      [(Call.Flush, (sendQuery P hostname ch query).2)] ∧
    (newCalls ch (sendQuery P hostname ch query)).count Call.Flush = 1 := by
  rw [sendQuery_eq_runSteps, frameSteps_eq_writes] at hok ⊢
  have hlog := runSteps_writes_ok _ Call.Flush ch
    (frameWrites_no_flush P hostname ch.Revision ch.compress query) hok
  have hlog2 : (runSteps (frameWrites P hostname ch.Revision ch.compress query ++
        [⟨Call.Flush, true⟩]) ch).1.log = ch.log ++
      (([Call.Uvarint P.ClientQuery, Call.String "", Call.Uvarint 1, Call.String "",
         Call.String "", Call.String "[::ffff:127.0.0.1]:0", Call.Uvarint 1,
         Call.String hostname, Call.String hostname, Call.ClientInfoWrite] ++
        (if ch.Revision ≥ P.DBMS_MIN_REVISION_WITH_QUOTA_KEY_IN_CLIENT_INFO
          then [Call.String ""] else []) ++
        [Call.String "", Call.Uvarint P.StateComplete,
         Call.Uvarint (if ch.compress then P.CompressEnable else P.CompressDisable),
         Call.String query, Call.writeBlock Block.zero]).map (fun c => (c, none))) ++
      [(Call.Flush, (runSteps (frameWrites P hostname ch.Revision ch.compress query ++
        [⟨Call.Flush, true⟩]) ch).2)] := by
    rw [hlog]
    by_cases hq : ch.Revision ≥ P.DBMS_MIN_REVISION_WITH_QUOTA_KEY_IN_CLIENT_INFO <;>
      simp [frameWrites, compressValue, hq]
  refine ⟨hlog2, ?_⟩
  rw [newCalls, newEntries_of_log _ _ _ (by rw [hlog2, List.append_assoc])]
  by_cases hq : ch.Revision ≥ P.DBMS_MIN_REVISION_WITH_QUOTA_KEY_IN_CLIENT_INFO <;>
    simp [hq, List.count_cons]

/-- C1, evaluated: revision 54060, no compression, query "SELECT 1", on a
transport that never fails. -/
theorem sendQuery_emits_frame_witness :
    (∀ entry ∈ newEntries (clickhouse.fresh 54060 false Transport.reliable)
        (sendQuery nativeProtocol "localhost"
          (clickhouse.fresh 54060 false Transport.reliable) "SELECT 1"),
        entry.1 ≠ Call.Flush → entry.2 = none) ∧
    (sendQuery nativeProtocol "localhost"
      (clickhouse.fresh 54060 false Transport.reliable) "SELECT 1").1.calls =
      [Call.Uvarint 1, Call.String "", Call.Uvarint 1, Call.String "", Call.String "",
       Call.String "[::ffff:127.0.0.1]:0", Call.Uvarint 1, Call.String "localhost",
       Call.String "localhost", Call.ClientInfoWrite, Call.String "", Call.String "",
       Call.Uvarint 2, Call.Uvarint 0, Call.String "SELECT 1",
       Call.writeBlock Block.zero, Call.Flush] := by
  have hok : ∀ entry ∈ newEntries (clickhouse.fresh 54060 false Transport.reliable)
        (sendQuery nativeProtocol "localhost"
          (clickhouse.fresh 54060 false Transport.reliable) "SELECT 1"),
        entry.1 ≠ Call.Flush → entry.2 = none := by
    decide
  have h := sendQuery_emits_frame nativeProtocol "localhost"
    (clickhouse.fresh 54060 false Transport.reliable) "SELECT 1" hok
  refine ⟨hok, ?_⟩
  rw [clickhouse.calls, h.1]
  decide

/-- The calls of a run in which every write succeeded: the head of the frame,
the quota-key string when the revision asks for it, and the tail of the frame. -/
theorem newCalls_writes_ok (P : Protocol) (hostname : String) (ch : clickhouse)
    (query : String)
    (hok : ∀ entry ∈ newEntries ch (sendQuery P hostname ch query),
      entry.1 ≠ Call.Flush → entry.2 = none) :
    newCalls ch (sendQuery P hostname ch query) =
      frameHead P hostname ++
      (if ch.Revision ≥ P.DBMS_MIN_REVISION_WITH_QUOTA_KEY_IN_CLIENT_INFO
        then [Call.String ""] else []) ++
      frameTail P ch.compress query := by
  rw [sendQuery_eq_runSteps, frameSteps_eq_writes] at hok ⊢
  have hlog := runSteps_writes_ok _ Call.Flush ch
    (frameWrites_no_flush P hostname ch.Revision ch.compress query) hok
  rw [newCalls, newEntries_of_log _ _ _ (by rw [hlog, List.append_assoc])]
  by_cases hq : ch.Revision ≥ P.DBMS_MIN_REVISION_WITH_QUOTA_KEY_IN_CLIENT_INFO <;>
    simp [frameWrites, frameHead, frameTail, hq]

/-- The calls of a run that returned the nil error. -/
theorem newCalls_of_nil_error (P : Protocol) (hostname : String) (ch : clickhouse)
    (query : String) (hnil : (sendQuery P hostname ch query).2 = none) :
    newCalls ch (sendQuery P hostname ch query) =
      frameHead P hostname ++
      (if ch.Revision ≥ P.DBMS_MIN_REVISION_WITH_QUOTA_KEY_IN_CLIENT_INFO
        then [Call.String ""] else []) ++
      frameTail P ch.compress query := by
  rw [sendQuery_eq_runSteps] at hnil ⊢
  have hcalls := runSteps_calls_of_ok _ ch hnil
  rw [newCalls_of_calls _ _ _ hcalls]
  by_cases hq : ch.Revision ≥ P.DBMS_MIN_REVISION_WITH_QUOTA_KEY_IN_CLIENT_INFO <;>
    simp [frameSteps, frameWrites, frameHead, frameTail, hq]

/-- C2: in a run of `sendQuery` in which every write succeeds, a revision below
DBMS_MIN_REVISION_WITH_QUOTA_KEY_IN_CLIENT_INFO puts nothing between the
client-info writer (the last call of the head) and the settings string (the first
call of the tail); a revision at or above it puts exactly one empty string there;
head and tail are the same in both cases, for they do not depend on the
revision. -/
theorem sendQuery_quota_key_by_revision (P : Protocol) (hostname : String) (ch : clickhouse)
    (query : String)
    (hok : ∀ entry ∈ newEntries ch (sendQuery P hostname ch query),
      entry.1 ≠ Call.Flush → entry.2 = none) :
    (ch.Revision < P.DBMS_MIN_REVISION_WITH_QUOTA_KEY_IN_CLIENT_INFO →
      newCalls ch (sendQuery P hostname ch query) =
        frameHead P hostname ++ frameTail P ch.compress query) ∧
    (P.DBMS_MIN_REVISION_WITH_QUOTA_KEY_IN_CLIENT_INFO ≤ ch.Revision →
      newCalls ch (sendQuery P hostname ch query) =
        frameHead P hostname ++ [Call.String ""] ++ frameTail P ch.compress query) ∧
    (frameHead P hostname).getLast? = some Call.ClientInfoWrite ∧
    (frameTail P ch.compress query).head? = some (Call.String "") := by
  have h := newCalls_writes_ok P hostname ch query hok
  refine ⟨fun hlt => ?_, fun hge => ?_, by simp [frameHead], by simp [frameTail]⟩
  · rw [h, if_neg (by omega)]; simp
  · rw [h, if_pos hge]

/-- C2, evaluated on a transport that never fails, on both sides of the threshold
54060: at revision 54059 the frame is head and tail, at revision 54060 one empty
string stands between them. -/
theorem sendQuery_quota_key_by_revision_witness :
    (∀ entry ∈ newEntries (clickhouse.fresh 54059 true Transport.reliable)
        (sendQuery nativeProtocol "localhost"
          (clickhouse.fresh 54059 true Transport.reliable) "SELECT 1"),
        entry.1 ≠ Call.Flush → entry.2 = none) ∧
    newCalls (clickhouse.fresh 54059 true Transport.reliable)
        (sendQuery nativeProtocol "localhost"
          (clickhouse.fresh 54059 true Transport.reliable) "SELECT 1") =
      frameHead nativeProtocol "localhost" ++ frameTail nativeProtocol true "SELECT 1" ∧
    newCalls (clickhouse.fresh 54060 true Transport.reliable)
        (sendQuery nativeProtocol "localhost"
          (clickhouse.fresh 54060 true Transport.reliable) "SELECT 1") =
      frameHead nativeProtocol "localhost" ++ [Call.String ""] ++
        frameTail nativeProtocol true "SELECT 1" :=
  ⟨by decide,
   (sendQuery_quota_key_by_revision nativeProtocol "localhost"
      (clickhouse.fresh 54059 true Transport.reliable) "SELECT 1" (by decide)).1
      (by decide),
   (sendQuery_quota_key_by_revision nativeProtocol "localhost"
      (clickhouse.fresh 54060 true Transport.reliable) "SELECT 1" (by decide)).2.1
      (by decide)⟩

/-- C3, at the failing input: on a transport whose third call fails once, the
third call of `sendQuery` (the kind marker `Uvarint(1)` of the client-info block)
returns an error, yet the run goes on through all seventeen calls, flushes the
transport and returns the nil error. On a transport broken from the third call
on, the seven writes of the client-info block are all attempted after the first
failure, and the error returned is that of the client-info writer, not that of
the first failing write. -/
theorem sendQuery_drops_preamble_error :
    (sendQuery nativeProtocol "localhost"
      (clickhouse.fresh 54060 false Transport.thirdCallFails) "SELECT 1").2 = none ∧
    (sendQuery nativeProtocol "localhost"
      (clickhouse.fresh 54060 false Transport.thirdCallFails) "SELECT 1").1.log =
      [(Call.Uvarint 1, none), (Call.String "", none),
       (Call.Uvarint 1, some ⟨"write: i/o timeout"⟩),
       (Call.String "", none), (Call.String "", none),
       (Call.String "[::ffff:127.0.0.1]:0", none), (Call.Uvarint 1, none),
       (Call.String "localhost", none), (Call.String "localhost", none),
       (Call.ClientInfoWrite, none), (Call.String "", none), (Call.String "", none),
       (Call.Uvarint 2, none), (Call.Uvarint 0, none), (Call.String "SELECT 1", none),
       (Call.writeBlock Block.zero, none), (Call.Flush, none)] ∧
    (sendQuery nativeProtocol "localhost"
      (clickhouse.fresh 54060 false Transport.brokenFromThird) "SELECT 1").2 =
      some ⟨"client info: connection reset"⟩ ∧
    (sendQuery nativeProtocol "localhost"
      (clickhouse.fresh 54060 false Transport.brokenFromThird) "SELECT 1").1.log =
      [(Call.Uvarint 1, none), (Call.String "", none),
       (Call.Uvarint 1, some ⟨"write: broken pipe"⟩),
       (Call.String "", some ⟨"write: broken pipe"⟩),
       (Call.String "", some ⟨"write: broken pipe"⟩),
       (Call.String "[::ffff:127.0.0.1]:0", some ⟨"write: broken pipe"⟩),
       (Call.Uvarint 1, some ⟨"write: broken pipe"⟩),
       (Call.String "localhost", some ⟨"write: broken pipe"⟩),
       (Call.String "localhost", some ⟨"write: broken pipe"⟩),
       (Call.ClientInfoWrite, some ⟨"client info: connection reset"⟩)] := by
  decide

/-- C4: in a run of `sendQuery` that returns the nil error, the call after the
StateComplete marker and before the query text is the uvarint of the compression
value; that value is a function of the connection's preference alone (not of the
query or the revision), and, the two constants being different, it is
CompressEnable exactly when the preference is true and CompressDisable exactly
when it is false. -/
theorem sendQuery_compression_flag (P : Protocol) (hostname : String) (ch : clickhouse)
    (query : String) (hdist : P.CompressEnable ≠ P.CompressDisable)
    (hnil : (sendQuery P hostname ch query).2 = none) :
    newCalls ch (sendQuery P hostname ch query) =
      frameHead P hostname ++
      (if ch.Revision ≥ P.DBMS_MIN_REVISION_WITH_QUOTA_KEY_IN_CLIENT_INFO
        then [Call.String ""] else []) ++
      [Call.String "", Call.Uvarint P.StateComplete,
       Call.Uvarint (compressValue P ch.compress),
       Call.String query, Call.writeBlock Block.zero, Call.Flush] ∧
    (compressValue P ch.compress = P.CompressEnable ↔ ch.compress = true) ∧
    (compressValue P ch.compress = P.CompressDisable ↔ ch.compress = false) := by
  refine ⟨newCalls_of_nil_error P hostname ch query hnil, ?_, ?_⟩
  · cases hc : ch.compress <;> simp [compressValue, hdist.symm]
  · cases hc : ch.compress <;> simp [compressValue, hdist]

/-- C4, evaluated with compression on, at revision 54060. -/
theorem sendQuery_compression_flag_witness :
    nativeProtocol.CompressEnable ≠ nativeProtocol.CompressDisable ∧
    (sendQuery nativeProtocol "localhost"
      (clickhouse.fresh 54060 true Transport.reliable) "SELECT 1").2 = none ∧
    (compressValue nativeProtocol true = nativeProtocol.CompressEnable ↔
      (clickhouse.fresh 54060 true Transport.reliable).compress = true) :=
  ⟨by decide, by decide,
   (sendQuery_compression_flag nativeProtocol "localhost"
      (clickhouse.fresh 54060 true Transport.reliable) "SELECT 1"
      (by decide) (by decide)).2.1⟩

/-! ### Lemmas on the varint and on the element loop -/

theorem putUvarintLoop_small (rounds x : Nat) (h : x < 128) :
    putUvarintLoop rounds x = [x] := by
  cases rounds <;> simp [putUvarintLoop, h]

theorem readUvarint_putUvarintLoop (rounds : Nat) :
    ∀ (x : Nat) (rest : List Nat), x ≤ rounds →
      readUvarint (putUvarintLoop rounds x ++ rest) = some (x, rest) := by
  induction rounds with
  | zero =>
    intro x rest hx
    have h0 : x = 0 := by omega
    subst h0
    simp [putUvarintLoop, readUvarint]
  | succ n ih =>
    intro x rest hx
    by_cases h : x < 128
    · simp [putUvarintLoop, h, readUvarint]
    · have hle : x / 128 ≤ n := by omega
      simp only [putUvarintLoop, h, if_false, List.cons_append, readUvarint]
      rw [if_neg (by omega), ih _ rest hle]
      simp only [Option.some.injEq, Prod.mk.injEq, and_true]
      omega

theorem readUvarint_putUvarint (n : Nat) (rest : List Nat) :
    readUvarint (putUvarint n ++ rest) = some (n, rest) :=
  readUvarint_putUvarintLoop n n rest (Nat.le_refl n)

/-- When every element encodes, the loop appends the encodings in order. -/
theorem writeElems_ok (env : Env) (c : Column) (xs : List Elem) (buff : List Nat)
    (hok : ∀ x ∈ xs, (env.Write c x).2 = none) :
    writeElems env (some c) xs buff = .ret (buff ++ encodeElems env c xs, none) := by
  induction xs generalizing buff with
  | nil => simp [writeElems, encodeElems]
  | cons x rest ih =>
    have hx : (env.Write c x).2 = none := hok x (by simp)
    have hrest : ∀ y ∈ rest, (env.Write c y).2 = none := fun y hy => hok y (by simp [hy])
    rw [writeElems]
    rcases hw : env.Write c x with ⟨bytes, e⟩
    rw [hw] at hx
    simp only at hx
    subst hx
    simp only []
    rw [ih _ hrest]
    simp [encodeElems, hw]

/-! ### The claims on `Array` -/

/-- C5: for an Array without error that holds a sequence `xs` and a codec under
which every element of `xs` encodes, `Value` returns, with the nil error, the
buffer made of the unsigned varint of the length of `xs` followed by the
encodings of the elements in sequence order; the varint read back from the head
of that buffer is the length of `xs`, what follows it is the encodings; and for
the empty sequence the buffer is the varint of 0 alone. -/
theorem Value_count_then_elements (env : Env) (array : Array) (xs : List Elem)
    (c : Column) (herr : array.err = none) (hseq : array.values.elems = some xs)
    (hcol : array.column = some c) (hok : ∀ x ∈ xs, (env.Write c x).2 = none) :
    array.Value env =
      .ret (some (putUvarint xs.length ++
        (xs.map (fun x => (env.Write c x).1)).flatten), none) ∧
    readUvarint (putUvarint xs.length ++ (xs.map (fun x => (env.Write c x).1)).flatten) =
      some (xs.length, (xs.map (fun x => (env.Write c x).1)).flatten) ∧
    (xs = [] → array.Value env = .ret (some (putUvarint 0), none)) := by
  have hval : array.Value env =
      .ret (some (putUvarint xs.length ++
        (xs.map (fun x => (env.Write c x).1)).flatten), none) := by
    simp only [Array.Value, herr, hseq, hcol, writeElems_ok env c xs _ hok, encodeElems]
  refine ⟨hval, readUvarint_putUvarint _ _, ?_⟩
  intro hnil
  rw [hval, hnil]
  simp

/-- C5, evaluated: the Array that NewArray builds from the `[]int8` 1, -2, 3. -/
theorem Value_count_then_elements_witness :
    (NewArray sampleEnv (.int8s [1, -2, 3])).Value sampleEnv =
      .ret (some [3, 1, 254, 3], none) := by
  have h := (Value_count_then_elements sampleEnv (NewArray sampleEnv (.int8s [1, -2, 3]))
    [.int8 1, .int8 (-2), .int8 3] .Int8 rfl rfl rfl (by decide)).1
  rw [h]
  decide

/-- C6: for an Array without error that holds a sequence `xs`, and for every
codec handed in by the caller under which every element of `xs` encodes,
`WriteArray` returns the length of `xs` with the nil error and leaves the
caller's encoder with exactly the encodings of the elements under that codec
appended, in sequence order, without a count in front. The Array's own codec
plays no part. -/
theorem WriteArray_count_and_elements (env : Env) (array : Array) (xs : List Elem)
    (encoder : List Nat) (column : Column)
    (herr : array.err = none) (hseq : array.values.elems = some xs)
    (hok : ∀ x ∈ xs, (env.Write column x).2 = none) :
    array.WriteArray env encoder (some column) =
      .ret (encoder ++ (xs.map (fun x => (env.Write column x).1)).flatten,
        xs.length, none) := by
  simp only [Array.WriteArray, herr, hseq, writeElems_ok env column xs _ hok, encodeElems]

/-- C6, evaluated: an Array of `[]uint8` resolved by name to the `Int8` codec is
written with the caller's `UInt8` codec onto an encoder that holds one byte. -/
theorem WriteArray_count_and_elements_witness :
    (NewArrayByType sampleEnv "Int8" (.uint8s [7, 200])).WriteArray sampleEnv [9]
      (some .UInt8) = .ret ([9, 7, 200], 2, none) := by
  have h := WriteArray_count_and_elements sampleEnv
    (NewArrayByType sampleEnv "Int8" (.uint8s [7, 200])) [.uint8 7, .uint8 200] [9] .UInt8
    rfl rfl (by decide)
  rw [h]
  decide

/-- C7: for a value whose type is not a key of `columnsMap`, NewArray yields an
Array whose error is "unsupported array type" followed by the type of the value;
`Value` then returns that error with a nil buffer and `WriteArray` returns it
with count 0 and the encoder as it was, whatever the codecs would do (no codec is
consulted). -/
theorem NewArray_unsupported_type (env : Env) (v : GoValue)
    (hmiss : columnsMap env v.TypeOf = none) :
    (NewArray env v).err = some ⟨"unsupported array type " ++ v.typeName⟩ ∧
    (∀ W, (NewArray env v).Value { env with Write := W } =
      .ret (none, (NewArray env v).err)) ∧
    (∀ W encoder column, (NewArray env v).WriteArray { env with Write := W } encoder column =
      .ret (encoder, 0, (NewArray env v).err)) := by
  have h : NewArray env v =
      { err := some ⟨"unsupported array type " ++ v.typeName⟩, values := .nil,
        column := none } := by
    simp only [NewArray, hmiss]
  refine ⟨by rw [h], fun W => ?_, fun W encoder column => ?_⟩
  · rw [h]; simp [Array.Value]
  · rw [h]; simp [Array.WriteArray]

/-- C7, evaluated on a `[]int`, a type that `columnsMap` does not list. -/
theorem NewArray_unsupported_type_witness :
    columnsMap sampleEnv (GoValue.ints [1, 2]).TypeOf = none ∧
    (NewArray sampleEnv (.ints [1, 2])).err = some ⟨"unsupported array type []int"⟩ :=
  ⟨by decide, (NewArray_unsupported_type sampleEnv (.ints [1, 2]) (by decide)).1⟩

/-- C8, at the failing input: `GobEncode` of the Array built from the `[]int8`
1, 2, 3 succeeds and transmits the slice under its concrete type; `GobDecode` of
these bytes into a fresh Array fails, for the decoder fills an interface variable
from a transmitted interface value only: the fresh Array gets that error and
holds neither the sequence nor a codec. -/
theorem GobEncode_GobDecode_fails :
    (NewArray sampleEnv (.int8s [1, 2, 3])).GobEncode =
      (some (.concrete (.int8s [1, 2, 3])), none) ∧
    Array.zero.GobDecode sampleEnv (.concrete (.int8s [1, 2, 3])) =
      ({ err := some ⟨"gob: local interface type *interface \x7b\x7d can only be decoded " ++
            "from remote interface type; received concrete type []int"⟩,
         values := .nil, column := none },
       some ⟨"gob: local interface type *interface \x7b\x7d can only be decoded " ++
            "from remote interface type; received concrete type []int"⟩) := by
  decide

/-- C9, at the failing input: an Array built by NewArrayByType from a type name
the factory does not resolve carries the factory's error, yet `GobEncode` returns
bytes and the nil error; an Array built by NewArray from an `int` carries
"unsupported array type int", and `GobEncode` returns another error,
"unsupported array type <nil>". -/
theorem GobEncode_ignores_stored_error :
    (NewArrayByType sampleEnv "NoSuchType" (.int8s [1])).err =
      some ⟨"column: unhandled type NoSuchType"⟩ ∧
    (NewArrayByType sampleEnv "NoSuchType" (.int8s [1])).GobEncode =
      (some (.concrete (.int8s [1])), none) ∧
    (NewArray sampleEnv (.scalar "int" "5")).err = some ⟨"unsupported array type int"⟩ ∧
    (NewArray sampleEnv (.scalar "int" "5")).GobEncode =
      (none, some ⟨"unsupported array type <nil>"⟩) := by
  decide

/-- C10 fails as stated: the Array that NewArrayByType builds from a sequence and
a type name the factory does not resolve has an error and holds the sequence; and
a failed `GobDecode` on an Array in use leaves it with an error, its values and
its codec. -/
theorem exclusive_state_counterexample :
    ¬ (NewArrayByType sampleEnv "NoSuchType" (.int8s [1])).exclusive ∧
    ¬ ((NewArray sampleEnv (.int8s [1])).GobDecode sampleEnv
        (.invalid ⟨"unexpected EOF"⟩)).1.exclusive := by
  decide

/-- C10, amended: every Array produced by NewArray, and every Array produced by
`GobDecode` on a fresh instance, is in exactly one of the two states: no error
with a sequence and a codec, or an error with neither values nor codec; and the
two states exclude each other. -/
theorem exclusive_state_NewArray_GobDecode (env : Env) (v : GoValue) (data : GobStream) :
    (NewArray env v).exclusive ∧ (Array.zero.GobDecode env data).1.exclusive ∧
    ∀ a : Array, ¬ ((a.err = none ∧ a.values.elems ≠ none ∧ a.column ≠ none) ∧
      (a.err ≠ none ∧ a.values = .nil ∧ a.column = none)) := by
  have hnew : ∀ w : GoValue, (NewArray env w).exclusive := by
    intro w
    cases w <;> simp [NewArray, columnsMap, GoValue.TypeOf, Array.exclusive, GoValue.elems]
  refine ⟨hnew v, ?_, ?_⟩
  · cases data with
    | concrete w => simp [Array.GobDecode, gobDecodeInterface, Array.zero, Array.exclusive]
    | invalid e => simp [Array.GobDecode, gobDecodeInterface, Array.zero, Array.exclusive]
    | iface w =>
      cases w <;>
        simp [Array.GobDecode, gobDecodeInterface, Array.zero, Array.exclusive, columnsMap,
          GoValue.TypeOf, GoValue.elems]
  · rintro a ⟨⟨h1, -, -⟩, ⟨h2, -, -⟩⟩
    exact h2 h1

/-! ### The loop on a failing element -/

/-- When the elements before `x` encode and `x` fails, the loop stops at `x`: the
encoder holds the encodings of the elements before `x` and what the failing
write left, and nothing of the elements after `x`. -/
theorem writeElems_fail (env : Env) (c : Column) (pre post : List Elem) (x : Elem)
    (e : GoError) (buff : List Nat)
    (hpre : ∀ y ∈ pre, (env.Write c y).2 = none) (hx : (env.Write c x).2 = some e) :
    writeElems env (some c) (pre ++ x :: post) buff =
      .ret (buff ++ encodeElems env c pre ++ (env.Write c x).1, some e) := by
  induction pre generalizing buff with
  | nil =>
    rw [List.nil_append, writeElems]
    rcases hw : env.Write c x with ⟨bytes, r⟩
    rw [hw] at hx
    simp only at hx
    subst hx
    simp [encodeElems]
  | cons y rest ih =>
    have hy : (env.Write c y).2 = none := hpre y (by simp)
    have hrest : ∀ z ∈ rest, (env.Write c z).2 = none := fun z hz => hpre z (by simp [hz])
    rw [List.cons_append, writeElems]
    rcases hw : env.Write c y with ⟨bytes, r⟩
    rw [hw] at hy
    simp only at hy
    subst hy
    simp only []
    rw [ih _ hrest]
    simp [encodeElems, hw]

/-! ### The claims on `Array`, continued -/

/-- C11: when the codec of an Array without error encodes the elements before
position i and fails on the element at position i, `Value` returns the error of
that element together with a nil buffer, so neither the count nor the encodings
of the earlier elements reach the caller; the loop has stopped there, its buffer
holding nothing of the elements after position i, whatever the codec would do
with them. -/
theorem Value_fails_with_nil_buffer (env : Env) (array : Array) (pre post : List Elem)
    (x : Elem) (c : Column) (e : GoError)
    (herr : array.err = none) (hseq : array.values.elems = some (pre ++ x :: post))
    (hcol : array.column = some c)
    (hpre : ∀ y ∈ pre, (env.Write c y).2 = none) (hx : (env.Write c x).2 = some e) :
    array.Value env = .ret (none, some e) ∧
    writeElems env array.column (pre ++ x :: post) (putUvarint (pre ++ x :: post).length) =
      .ret (putUvarint (pre ++ x :: post).length ++ encodeElems env c pre ++
        (env.Write c x).1, some e) := by
  have hloop := writeElems_fail env c pre post x e
    (putUvarint (pre ++ x :: post).length) hpre hx
  refine ⟨?_, by rw [hcol, hloop]⟩
  simp only [Array.Value, herr, hseq, hcol, hloop]

/-- C11, evaluated: a sequence of mixed elements under the `Int8` codec, which
fails on the third element. -/
theorem Value_fails_with_nil_buffer_witness :
    (NewArrayByType sampleEnv "Int8" mixedSeq).Value sampleEnv =
      .ret (none, some ⟨"unexpected type"⟩) :=
  (Value_fails_with_nil_buffer sampleEnv (NewArrayByType sampleEnv "Int8" mixedSeq)
    [.int8 1, .int8 2] [.int8 4] (.uint8 3) .Int8 ⟨"unexpected type"⟩
    rfl rfl rfl (by decide) rfl).1

/-- C12: NewArray yields an Array without error exactly for a value whose type is
one of the twelve registered sequence types; the Array then holds the value
itself and a codec, which is the codec of the element type (for timestamps the
DateTime codec with IsFull set and the process-local timezone); every key of
`columnsMap` has a codec; any other value, a `[]int` among them, yields an
error. -/
theorem NewArray_accepts_twelve_types (env : Env) (v : GoValue) :
    ((NewArray env v).err = none ↔ v.TypeOf ∈ registryTypes) ∧
    (v.TypeOf ∈ registryTypes →
      (NewArray env v).values = v ∧ (NewArray env v).column ≠ none ∧
      (NewArray env v).column = columnsMap env v.TypeOf) ∧
    (registryTypes.map (columnsMap env) =
      [some .Int8, some .Int16, some .Int32, some .Int64, some .UInt8, some .UInt16,
       some .UInt32, some .UInt64, some .Float32, some .Float64, some .String,
       some (.DateTime true env.Local)]) ∧
    (∀ t, columnsMap env t ≠ none ↔ t ∈ registryTypes) ∧
    (v.TypeOf ∉ registryTypes →
      (NewArray env v).err = some ⟨"unsupported array type " ++ v.typeName⟩) ∧
    (∀ xs, (NewArray env (.ints xs)).err = some ⟨"unsupported array type []int"⟩) := by
  refine ⟨?_, ?_, rfl, ?_, ?_, fun xs => rfl⟩
  · cases v <;> simp [NewArray, columnsMap, GoValue.TypeOf, registryTypes]
  · cases v <;> simp [NewArray, columnsMap, GoValue.TypeOf, registryTypes]
  · intro t
    cases t <;> simp [columnsMap, registryTypes]
  · cases v <;> simp [NewArray, columnsMap, GoValue.TypeOf, registryTypes, GoValue.typeName]

/-- C12, evaluated on a sequence of timestamps. -/
theorem NewArray_accepts_twelve_types_witness :
    (NewArray sampleEnv (.times [⟨0, ⟨"UTC"⟩, 0⟩])).values = .times [⟨0, ⟨"UTC"⟩, 0⟩] ∧
    (NewArray sampleEnv (.times [⟨0, ⟨"UTC"⟩, 0⟩])).column ≠ none ∧
    (NewArray sampleEnv (.times [⟨0, ⟨"UTC"⟩, 0⟩])).column =
      columnsMap sampleEnv (GoValue.times [⟨0, ⟨"UTC"⟩, 0⟩]).TypeOf :=
  (NewArray_accepts_twelve_types sampleEnv (.times [⟨0, ⟨"UTC"⟩, 0⟩])).2.1 (by decide)

/-- C13: `GobEncode` returns the nil error only when the held value has one of
the twelve registered sequence types; for an Array that holds a value of any
other type (no value at all, or a `[]int`, which `init` registers with gob) it
returns no bytes and the error "unsupported array type" followed by the type of
the held value. -/
theorem GobEncode_unsupported_type (array : Array) :
    (array.GobEncode.2 = none → array.values.TypeOf ∈ registryTypes) ∧
    (array.values.TypeOf ∉ registryTypes →
      array.GobEncode = (none, some ⟨"unsupported array type " ++ array.values.typeName⟩)) ∧
    (array.values = .nil →
      array.GobEncode = (none, some ⟨"unsupported array type <nil>"⟩)) ∧
    (∀ xs, array.values = .ints xs →
      array.GobEncode = (none, some ⟨"unsupported array type []int"⟩)) := by
  obtain ⟨err, values, column⟩ := array
  refine ⟨?_, ?_, ?_, ?_⟩
  · cases values <;> simp [Array.GobEncode, GoValue.TypeOf, registryTypes]
  · cases values <;> simp [Array.GobEncode, GoValue.TypeOf, registryTypes]
  · rintro rfl
    rfl
  · rintro xs rfl
    rfl

/-- C13, evaluated on an Array that holds a `[]int`, and on a fresh Array, which
holds no value. -/
theorem GobEncode_unsupported_type_witness :
    (NewArrayByType sampleEnv "Int8" (.ints [1, 2])).GobEncode =
      (none, some ⟨"unsupported array type []int"⟩) ∧
    Array.zero.GobEncode = (none, some ⟨"unsupported array type <nil>"⟩) :=
  ⟨(GobEncode_unsupported_type (NewArrayByType sampleEnv "Int8" (.ints [1, 2]))).2.1
      (by decide),
   (GobEncode_unsupported_type Array.zero).2.2.1 rfl⟩

/-- C14: after `GobDecode`, (1) when the envelope does not parse, the decoder's
error is stored on the instance, and `Value` and `WriteArray` return that error;
(2) when the decoded value has a type that `columnsMap` does not list, the error
"unsupported array type" with that type is stored, and `Value` and `WriteArray`
return it; (3) when the type is listed, the instance holds the decoded value and
the codec that `columnsMap`, the map NewArray reads, gives for it. -/
theorem GobDecode_stores_error_or_sequence (env : Env) (array : Array)
    (data : GobStream) :
    (∀ e, gobDecodeInterface data = .error e →
      (array.GobDecode env data).1.err = some e ∧
      (array.GobDecode env data).1.Value env = .ret (none, some e) ∧
      ∀ encoder column, (array.GobDecode env data).1.WriteArray env encoder column =
        .ret (encoder, 0, some e)) ∧
    (∀ v, gobDecodeInterface data = .ok v → columnsMap env v.TypeOf = none →
      (array.GobDecode env data).1.err =
        some ⟨"unsupported array type " ++ v.typeName⟩ ∧
      (array.GobDecode env data).1.Value env =
        .ret (none, some ⟨"unsupported array type " ++ v.typeName⟩) ∧
      ∀ encoder column, (array.GobDecode env data).1.WriteArray env encoder column =
        .ret (encoder, 0, some ⟨"unsupported array type " ++ v.typeName⟩)) ∧
    (∀ v c, gobDecodeInterface data = .ok v → columnsMap env v.TypeOf = some c →
      (array.GobDecode env data).1.values = v ∧
      (array.GobDecode env data).1.column = some c ∧
      (NewArray env v).column = some c) := by
  refine ⟨fun e he => ?_, fun v hv hmiss => ?_, fun v c hv hhit => ?_⟩
  · simp [Array.GobDecode, he, Array.Value, Array.WriteArray]
  · simp [Array.GobDecode, hv, hmiss, Array.Value, Array.WriteArray]
  · simp [Array.GobDecode, hv, hhit, NewArray]

/-- C14, evaluated on a fresh Array: an envelope that carries a `[]int` as an
interface value, and one that carries a `[]int8`. -/
theorem GobDecode_stores_error_or_sequence_witness :
    (Array.zero.GobDecode sampleEnv (.iface (.ints [1, 2]))).1.Value sampleEnv =
      .ret (none, some ⟨"unsupported array type []int"⟩) ∧
    (Array.zero.GobDecode sampleEnv (.iface (.int8s [1, 2]))).1.values = .int8s [1, 2] ∧
    (Array.zero.GobDecode sampleEnv (.iface (.int8s [1, 2]))).1.column = some .Int8 :=
  ⟨((GobDecode_stores_error_or_sequence sampleEnv Array.zero (.iface (.ints [1, 2]))).2.1
      (.ints [1, 2]) rfl rfl).2.1,
   ((GobDecode_stores_error_or_sequence sampleEnv Array.zero (.iface (.int8s [1, 2]))).2.2
      (.int8s [1, 2]) .Int8 rfl rfl).1,
   ((GobDecode_stores_error_or_sequence sampleEnv Array.zero (.iface (.int8s [1, 2]))).2.2
      (.int8s [1, 2]) .Int8 rfl rfl).2.1⟩

/-- C15, at the failing input: NewArrayByType with the type name "Int8", which
the factory resolves, and a value that is not a sequence (an `int8`, a single
timestamp, the nil interface) yields an Array without error; `Value` and
`WriteArray` then reach `reflect.ValueOf(array.values).Len()` with that value and
panic. -/
theorem Value_WriteArray_panic_on_scalar :
    (NewArrayByType sampleEnv "Int8" (.scalar "int8" "5")).err = none ∧
    (NewArrayByType sampleEnv "Int8" (.scalar "int8" "5")).Value sampleEnv =
      .panic "reflect: call of reflect.Value.Len on int8" ∧
    (NewArrayByType sampleEnv "Int8" (.scalar "int8" "5")).WriteArray sampleEnv []
      (some .Int8) = .panic "reflect: call of reflect.Value.Len on int8" ∧
    (NewArrayByType sampleEnv "DateTime" (.time ⟨0, ⟨"UTC"⟩, 0⟩)).Value sampleEnv =
      .panic "reflect: call of reflect.Value.Len on time.Time" ∧
    (NewArrayByType sampleEnv "Int8" .nil).Value sampleEnv =
      .panic "reflect: call of reflect.Value.Len on <nil>" := by
  decide

/-- C16, at the failing input: for a sequence of timestamps in UTC the factory is
handed the process-local timezone and not the timezone of the timestamps, which
is what the specification asks for; the type assertion `v.(time.Time)` holds for
a single timestamp only. The factory of the sample environment puts the timezone
it is handed into the codec it returns. -/
theorem NewArrayByType_sequence_timezone_is_local :
    (NewArrayByType sampleEnv "DateTime" (.times [⟨0, ⟨"UTC"⟩, 0⟩])).column =
      (sampleEnv.Factory "" "DateTime" sampleEnv.Local).1 ∧
    (NewArrayByType sampleEnv "DateTime" (.times [⟨0, ⟨"UTC"⟩, 0⟩])).column ≠
      (sampleEnv.Factory "" "DateTime"
        (specTimezone sampleEnv (.times [⟨0, ⟨"UTC"⟩, 0⟩]))).1 ∧
    specTimezone sampleEnv (.times [⟨0, ⟨"UTC"⟩, 0⟩]) = ⟨"UTC"⟩ ∧
    (NewArrayByType sampleEnv "DateTime" (.times [⟨0, ⟨"UTC"⟩, 0⟩])).column =
      some (.DateTime false ⟨"Local"⟩) ∧
    (NewArrayByType sampleEnv "DateTime" (.time ⟨0, ⟨"UTC"⟩, 0⟩)).column =
      some (.DateTime false ⟨"UTC"⟩) := by
  decide

/-- The encoder reports one error only, that of a time that does not marshal. -/
theorem gobEncodeError_msg (v : GoValue) (e : GoError) (h : gobEncodeError v = some e) :
    e = ⟨"Time.MarshalBinary: unexpected zone offset"⟩ := by
  cases v with
  | times xs =>
    simp only [gobEncodeError] at h
    induction xs with
    | nil => simp at h
    | cons t rest ih =>
      rw [List.findSome?_cons] at h
      cases ht : t.marshalBinaryError with
      | none => rw [ht] at h; exact ih h
      | some e1 =>
        rw [ht] at h
        simp only [Option.some.injEq] at h
        subst h
        unfold Time.marshalBinaryError at ht
        split at ht
        · simp at ht
        · split at ht
          · simpa using ht.symm
          · simp at ht
  | _ => simp [gobEncodeError] at h

/-- What `GobEncode` returns for a held value of one of the twelve types: the
encoded value when the encoder reports no error, and that error otherwise. -/
theorem GobEncode_of_registry_type (array : Array)
    (h : array.values.TypeOf ∈ registryTypes) :
    array.GobEncode =
      match gobEncodeError array.values with
      | none => (some (.concrete array.values), none)
      | some e => (none, some e) := by
  obtain ⟨err, values, column⟩ := array
  cases values <;> first | rfl | simp [GoValue.TypeOf, registryTypes] at h

/-- C17 fails as stated: NewArray accepts a sequence of timestamps whose zone lies
one minute west of UTC, and `GobEncode` of that Array returns no bytes and the
encoder's error, for `Time.MarshalBinary` rejects that zone offset. -/
theorem GobEncode_accepted_not_encoded_counterexample :
    (NewArray sampleEnv (.times [⟨0, ⟨"x"⟩, -60⟩])).err = none ∧
    (NewArray sampleEnv (.times [⟨0, ⟨"x"⟩, -60⟩])).GobEncode =
      (none, some ⟨"Time.MarshalBinary: unexpected zone offset"⟩) ∧
    (NewArray sampleEnv (.times [⟨0, ⟨"x"⟩, -60⟩])).GobEncode ≠
      (some (.concrete (.times [⟨0, ⟨"x"⟩, -60⟩])), none) := by
  decide

/-- C17, amended: for every value, NewArray yields an Array without error exactly
when `GobEncode` on an Array that holds the value does not return the error of
its default branch, "unsupported array type" with the type of the value. An
Array that NewArray accepts is handed to the encoder: it is encoded, with the nil
error, when the encoder reports no error, and `GobEncode` returns the encoder's
error and no bytes otherwise; the encoder reports no error for a sequence of any
type but timestamps, nor for timestamps that all marshal. An Array that holds a
value NewArray rejects is never encoded. -/
theorem GobEncode_accepts_registry_types (env : Env) (v : GoValue)
    (err : Option GoError) (column : Option Column) :
    ((NewArray env v).err = none ↔
      (Array.GobEncode { err := err, values := v, column := column }).2 ≠
        some ⟨"unsupported array type " ++ v.typeName⟩) ∧
    ((NewArray env v).err = none → gobEncodeError v = none →
      (NewArray env v).GobEncode = (some (.concrete v), none)) ∧
    ((NewArray env v).err = none → ∀ e, gobEncodeError v = some e →
      (NewArray env v).GobEncode = (none, some e)) ∧
    ((∀ xs, v ≠ .times xs) → gobEncodeError v = none) ∧
    (∀ xs : List Time, (∀ t ∈ xs, t.marshalBinaryError = none) →
      gobEncodeError (.times xs) = none) ∧
    ((NewArray env v).err ≠ none →
      Array.GobEncode { err := err, values := v, column := column } =
        (none, some ⟨"unsupported array type " ++ v.typeName⟩)) := by
  have hacc : (NewArray env v).err = none → v.TypeOf ∈ registryTypes := by
    cases v <;> simp [NewArray, columnsMap, GoValue.TypeOf, registryTypes]
  have hval : (NewArray env v).err = none → (NewArray env v).values = v := by
    cases v <;> simp [NewArray, columnsMap, GoValue.TypeOf]
  have hrej : (NewArray env v).err ≠ none →
      Array.GobEncode { err := err, values := v, column := column } =
        (none, some ⟨"unsupported array type " ++ v.typeName⟩) := by
    cases v <;> simp [NewArray, columnsMap, GoValue.TypeOf, Array.GobEncode]
  refine ⟨⟨fun h => ?_, fun h => ?_⟩, fun h hnone => ?_, fun h e he => ?_, fun hv => ?_,
    fun xs hxs => ?_, hrej⟩
  · rw [GobEncode_of_registry_type _ (hacc h)]
    cases he : gobEncodeError v with
    | none => simp
    | some e =>
      have hmsg := gobEncodeError_msg v e he
      subst hmsg
      have hv : ∃ xs, v = .times xs := by
        cases v <;> simp [gobEncodeError] at he ⊢
      obtain ⟨xs, rfl⟩ := hv
      simp only [he, GoValue.typeName]
      decide
  · by_contra hne
    exact h (by rw [hrej hne])
  · have h2 := GobEncode_of_registry_type (NewArray env v) (by rw [hval h]; exact hacc h)
    rw [h2, hval h, hnone]
  · have h2 := GobEncode_of_registry_type (NewArray env v) (by rw [hval h]; exact hacc h)
    rw [h2, hval h, he]
  · cases v <;> first | rfl | exact absurd rfl (hv _)
  · simp only [gobEncodeError]
    induction xs with
    | nil => rfl
    | cons t rest ih =>
      rw [List.findSome?_cons, hxs t (by simp)]
      exact ih (fun u hu => hxs u (by simp [hu]))

/-- C17 as amended, evaluated on a `[]string`, which both accept and the encoder
encodes. -/
theorem GobEncode_accepts_registry_types_witness :
    (NewArray sampleEnv (.strings ["a", "b"])).GobEncode =
      (some (.concrete (.strings ["a", "b"])), none) :=
  (GobEncode_accepts_registry_types sampleEnv (.strings ["a", "b"]) none none).2.1 rfl rfl

/-- C18: when the codec handed to `WriteArray` encodes the elements before
position i of the sequence of an Array without error and fails on the element at
position i, `WriteArray` returns the count 0 and the error of that element; the
caller's encoder keeps what it held, followed by the encodings of the elements
before position i (and by what the failing write left), and holds nothing of the
elements after position i. `Value`, with the same codec as the Array's own,
returns a nil buffer. -/
theorem WriteArray_keeps_partial_output (env : Env) (array : Array)
    (pre post : List Elem) (x : Elem) (column : Column) (e : GoError)
    (encoder : List Nat)
    (herr : array.err = none) (hseq : array.values.elems = some (pre ++ x :: post))
    (hpre : ∀ y ∈ pre, (env.Write column y).2 = none)
    (hx : (env.Write column x).2 = some e) :
    array.WriteArray env encoder (some column) =
      .ret (encoder ++ (pre.map (fun y => (env.Write column y).1)).flatten ++
        (env.Write column x).1, 0, some e) ∧
    (array.column = some column → array.Value env = .ret (none, some e)) := by
  have hloop := fun buff => writeElems_fail env column pre post x e buff hpre hx
  refine ⟨?_, fun hcol => ?_⟩
  · simp only [Array.WriteArray, herr, hseq, hloop, encodeElems]
  · simp only [Array.Value, herr, hseq, hcol, hloop]

/-- C18, evaluated: a sequence of mixed elements written with the `Int8` codec
onto an encoder that holds one byte; the third element fails, the first two stay
on the encoder. -/
theorem WriteArray_keeps_partial_output_witness :
    (NewArrayByType sampleEnv "UInt8" mixedSeq).WriteArray sampleEnv [9] (some .Int8) =
      .ret ([9, 1, 2], 0, some ⟨"unexpected type"⟩) := by
  have h := (WriteArray_keeps_partial_output sampleEnv
    (NewArrayByType sampleEnv "UInt8" mixedSeq) [.int8 1, .int8 2] [.int8 4] (.uint8 3)
    .Int8 ⟨"unexpected type"⟩ [9] rfl rfl (by decide) rfl).1
  rw [h]
  decide

/-- C19: `GobDecode` returns the error field of the instance as it stands after
the call; an error held before the call is never replaced by nil; and the call
either succeeds, changing the values and the codec and nothing else (so the
error returned is the one held before), or fails, changing the error field and
nothing else. -/
theorem GobDecode_frame (env : Env) (array : Array) (data : GobStream) :
    (array.GobDecode env data).2 = (array.GobDecode env data).1.err ∧
    (array.err ≠ none → (array.GobDecode env data).1.err ≠ none) ∧
    ((∃ v c, gobDecodeInterface data = .ok v ∧ columnsMap env v.TypeOf = some c ∧
        (array.GobDecode env data).1 = { array with values := v, column := some c } ∧
        (array.GobDecode env data).2 = array.err) ∨
     (∃ e, (array.GobDecode env data).1 = { array with err := some e } ∧
        (array.GobDecode env data).2 = some e ∧
        (∀ v, gobDecodeInterface data = .ok v → columnsMap env v.TypeOf = none))) := by
  rcases hd : gobDecodeInterface data with e | v
  · refine ⟨by simp [Array.GobDecode, hd], by simp [Array.GobDecode, hd], Or.inr ⟨e, ?_⟩⟩
    simp [Array.GobDecode, hd]
  · rcases hc : columnsMap env v.TypeOf with _ | c
    · refine ⟨by simp [Array.GobDecode, hd, hc], by simp [Array.GobDecode, hd, hc],
        Or.inr ⟨⟨"unsupported array type " ++ v.typeName⟩, ?_⟩⟩
      simp [Array.GobDecode, hd, hc]
    · refine ⟨by simp [Array.GobDecode, hd, hc], by simp [Array.GobDecode, hd, hc],
        Or.inl ⟨v, c, rfl, hc, ?_⟩⟩
      simp [Array.GobDecode, hd, hc]

/-- C19, evaluated: a successful decode into an Array that NewArray had rejected
returns the old error and leaves it in place, next to the new values. -/
theorem GobDecode_frame_witness :
    (NewArray sampleEnv (.scalar "int" "5")).err ≠ none ∧
    ((NewArray sampleEnv (.scalar "int" "5")).GobDecode sampleEnv
        (.iface (.int8s [1]))).1.err ≠ none ∧
    (NewArray sampleEnv (.scalar "int" "5")).GobDecode sampleEnv (.iface (.int8s [1])) =
      ({ err := some ⟨"unsupported array type int"⟩, values := .int8s [1],
         column := some .Int8 }, some ⟨"unsupported array type int"⟩) :=
  ⟨by decide,
   (GobDecode_frame sampleEnv (NewArray sampleEnv (.scalar "int" "5"))
      (.iface (.int8s [1]))).2.1 (by decide),
   by decide⟩

/-- C20: for an Array without error whose elements all encode under its own
codec, `WriteArray` with that codec on an empty encoder returns a count and
leaves bytes on the encoder such that the buffer `Value` returns is the unsigned
varint of that count followed by exactly those bytes; the count is the length of
the sequence. Both methods only read the Array: their results are functions of
it, and no field of it is assigned. -/
theorem Value_eq_count_and_WriteArray (env : Env) (array : Array) (xs : List Elem)
    (c : Column) (herr : array.err = none) (hseq : array.values.elems = some xs)
    (hcol : array.column = some c) (hok : ∀ x ∈ xs, (env.Write c x).2 = none) :
    ∃ bytes count,
      array.WriteArray env [] array.column = .ret (bytes, count, none) ∧
      array.Value env = .ret (some (putUvarint count ++ bytes), none) ∧
      count = xs.length := by
  refine ⟨encodeElems env c xs, xs.length, ?_, ?_, rfl⟩
  · simp only [Array.WriteArray, herr, hseq, hcol, writeElems_ok env c xs _ hok,
      List.nil_append]
  · simp only [Array.Value, herr, hseq, hcol, writeElems_ok env c xs _ hok]

/-- C20, evaluated on the Array that NewArray builds from the `[]uint8` 7, 200. -/
theorem Value_eq_count_and_WriteArray_witness :
    ∃ bytes count,
      (NewArray sampleEnv (.uint8s [7, 200])).WriteArray sampleEnv []
        (NewArray sampleEnv (.uint8s [7, 200])).column = .ret (bytes, count, none) ∧
      (NewArray sampleEnv (.uint8s [7, 200])).Value sampleEnv =
        .ret (some (putUvarint count ++ bytes), none) ∧
      count = 2 :=
  Value_eq_count_and_WriteArray sampleEnv (NewArray sampleEnv (.uint8s [7, 200]))
    [.uint8 7, .uint8 200] .UInt8 rfl rfl rfl (by decide)

end Clickhouse
